import Mathlib

/-!
Shallow embedding of the NewsLingo subtitle core:
timestamp codec, SRT/VTT parser, active-segment resolver,
karaoke progress estimator, and the translation batcher.
JavaScript numbers are modelled as exact rationals extended with
NaN and the two signed infinities, so division by zero and NaN
propagation behave as in the source. JavaScript string primitives
(split, replace, trim, includes, startsWith) are implemented
structurally on character lists so that every definition evaluates
inside the kernel.
-/

namespace NewsLingo

/-- JS number: NaN, signed infinity (`inf true` is positive), or an exact rational. -/
inductive JSVal where
  | nan : JSVal
  | inf : Bool → JSVal
  | val : ℚ → JSVal
deriving DecidableEq, Repr

/-- JS unary minus. -/
def jsNeg : JSVal → JSVal
  | .nan => .nan
  | .inf b => .inf (!b)
  | .val q => .val (-q)

/-- JS addition: NaN propagates; opposite infinities give NaN. -/
def jsAdd : JSVal → JSVal → JSVal
  | .nan, _ => .nan
  | _, .nan => .nan
  | .inf a, .inf b => if a = b then .inf a else .nan
  | .inf a, .val _ => .inf a
  | .val _, .inf b => .inf b
  | .val a, .val b => .val (a + b)

/-- JS subtraction. -/
def jsSub (a b : JSVal) : JSVal := jsAdd a (jsNeg b)

/-- JS multiplication: NaN propagates; 0 times infinity is NaN. -/
def jsMul : JSVal → JSVal → JSVal
  | .nan, _ => .nan
  | _, .nan => .nan
  | .inf a, .inf b => .inf (a == b)
  | .inf a, .val q => if q = 0 then .nan else .inf (a == decide (0 < q))
  | .val q, .inf b => if q = 0 then .nan else .inf (b == decide (0 < q))
  | .val a, .val b => .val (a * b)

/-- JS division: 0/0 is NaN, nonzero/0 is a signed infinity, NaN propagates. -/
def jsDiv : JSVal → JSVal → JSVal
  | .nan, _ => .nan
  | _, .nan => .nan
  | .inf _, .inf _ => .nan
  | .inf a, .val q => if q = 0 then .inf a else .inf (a == decide (0 < q))
  | .val _, .inf _ => .val 0
  | .val p, .val q =>
      if q = 0 then (if p = 0 then .nan else .inf (decide (0 < p))) else .val (p / q)

/-- JS strict less-than: any comparison with NaN is false. -/
def jsLt : JSVal → JSVal → Bool
  | .nan, _ => false
  | _, .nan => false
  | .inf a, .inf b => !a && b
  | .inf a, .val _ => !a
  | .val _, .inf b => b
  | .val p, .val q => decide (p < q)

/-- JS less-or-equal: any comparison with NaN is false. -/
def jsLe : JSVal → JSVal → Bool
  | .nan, _ => false
  | _, .nan => false
  | .inf a, .inf b => !a || b
  | .inf a, .val _ => !a
  | .val _, .inf b => b
  | .val p, .val q => decide (p ≤ q)

/-- JS `Math.max`: NaN if either argument is NaN. -/
def jsMax : JSVal → JSVal → JSVal
  | .nan, _ => .nan
  | _, .nan => .nan
  | a, b => if jsLe a b then b else a

/-- JS `Math.min`: NaN if either argument is NaN. -/
def jsMin : JSVal → JSVal → JSVal
  | .nan, _ => .nan
  | _, .nan => .nan
  | a, b => if jsLe a b then a else b

/-- JS `Math.floor` on the model. -/
def jsFloor : JSVal → JSVal
  | .nan => .nan
  | .inf b => .inf b
  | .val q => .val (Int.floor q)

/-! ### JS string primitives, structurally on character lists -/

/-- Does `pat` occur at the very front of the second list? -/
def matchesFront : List Char → List Char → Bool
  | [], _ => true
  | _ :: _, [] => false
  | a :: as, b :: bs => a == b && matchesFront as bs

/-- JS `String.prototype.includes`. -/
def listIncludes (pat : List Char) : List Char → Bool
  | [] => pat.isEmpty
  | c :: rest => matchesFront pat (c :: rest) || listIncludes pat rest

/-- Push a character onto the first piece of a split result. -/
def consHead (c : Char) : List (List Char) → List (List Char)
  | [] => [[c]]
  | h :: t => (c :: h) :: t

/-- JS `split` on a fixed non-empty separator, fuelled for structural recursion;
the fuel is always instantiated with the length of the input. -/
def splitOnGo (sep : List Char) : Nat → List Char → List (List Char)
  | _, [] => [[]]
  | 0, l => [l]
  | fuel + 1, c :: rest =>
      if !sep.isEmpty && matchesFront sep (c :: rest) then
        [] :: splitOnGo sep fuel (List.drop sep.length (c :: rest))
      else
        consHead c (splitOnGo sep fuel rest)

/-- JS `s.split(sep)` for a non-empty string separator. -/
def splitOnList (sep l : List Char) : List (List Char) := splitOnGo sep l.length l

/-- JS `split` on a character class (used for `/[,.]/`). -/
def splitPred (p : Char → Bool) : List Char → List (List Char)
  | [] => [[]]
  | c :: rest => if p c then [] :: splitPred p rest else consHead c (splitPred p rest)

/-- JS global `replace` of a fixed non-empty pattern, fuelled for structural recursion. -/
def replaceGo (pat repl : List Char) : Nat → List Char → List Char
  | _, [] => []
  | 0, l => l
  | fuel + 1, c :: rest =>
      if !pat.isEmpty && matchesFront pat (c :: rest) then
        repl ++ replaceGo pat repl fuel (List.drop pat.length (c :: rest))
      else
        c :: replaceGo pat repl fuel rest

/-- JS `s.replace(pat, repl)` with a global flag, for a non-empty pattern. -/
def replaceAll (pat repl l : List Char) : List Char := replaceGo pat repl l.length l

/-- JS `String.prototype.trim` (over the whitespace characters that occur here). -/
def trimList (l : List Char) : List Char :=
  ((l.dropWhile Char.isWhitespace).reverse.dropWhile Char.isWhitespace).reverse

/-- Join pieces with a newline, as JS `Array.prototype.join('\n')`. -/
def joinNL : List (List Char) → List Char
  | [] => []
  | [x] => x
  | x :: xs => x ++ '\n' :: joinNL xs

/-- Drop characters up to and including the first `>`, or fail. -/
def dropThroughClose : List Char → Option (List Char)
  | [] => none
  | c :: rest => if c = '>' then some rest else dropThroughClose rest

/-- The regex replace `/<[^>]*>/g` of the parser, fuelled for structural
recursion: remove every maximal `<` … `>` span containing no `>`;
a `<` with no later `>` is kept. -/
def stripTagsGo : Nat → List Char → List Char
  | _, [] => []
  | 0, l => l
  | fuel + 1, c :: rest =>
      if c = '<' then
        match dropThroughClose rest with
        | some rest2 => stripTagsGo fuel rest2
        | none => c :: stripTagsGo fuel rest
      else
        c :: stripTagsGo fuel rest

/-- The regex replace `/<[^>]*>/g` applied in the parser's text assembly. -/
def stripTags (l : List Char) : List Char := stripTagsGo l.length l

/-! ### Timestamp codec (`timeToSeconds` in `subtitleParser.ts`) -/

/-- Numeric value of a decimal digit character. -/
def digitVal (c : Char) : Nat := c.toNat - 48

/-- Accumulate the longest leading digit run, as JS `parseInt` does past its first digit. -/
def leadingDigitsAux : List Char → Nat → Nat
  | [], acc => acc
  | c :: rest, acc => if c.isDigit then leadingDigitsAux rest (acc * 10 + digitVal c) else acc

/-- JS `parseInt` after sign handling: NaN unless the text begins with a digit. -/
def jsParseIntCore : List Char → JSVal
  | [] => .nan
  | c :: rest => if c.isDigit then .val (leadingDigitsAux rest (digitVal c)) else .nan

/-- JS `parseInt(s, 10)`: skip leading whitespace, optional sign, longest digit run; NaN otherwise. -/
def jsParseInt (s : List Char) : JSVal :=
  match s.dropWhile Char.isWhitespace with
  | '-' :: rest => jsNeg (jsParseIntCore rest)
  | '+' :: rest => jsParseIntCore rest
  | l => jsParseIntCore l

/-- JS `parseInt` applied to a possibly-undefined field (`undefined` parses to NaN). -/
def jsParseIntOpt : Option (List Char) → JSVal
  | none => .nan
  | some s => jsParseInt s

/-- `timeToSeconds` from `subtitleParser.ts`: split on `:`, then split the final
field on `,` or `.`; colon-field counts other than 2 and 3 fall back to `0`. -/
def timeToSeconds (timeString : List Char) : JSVal :=
  let parts := splitOnList [':'] timeString
  match parts with
  | [p0, p1, p2] =>
      let hours := jsParseInt p0
      let minutes := jsParseInt p1
      let secParts := splitPred (fun c => c == ',' || c == '.') p2
      let seconds := jsParseIntOpt secParts[0]?
      let ms := jsParseIntOpt secParts[1]?
      jsAdd (jsAdd (jsAdd (jsMul hours (.val 3600)) (jsMul minutes (.val 60))) seconds)
        (jsDiv ms (.val 1000))
  | [p0, p1] =>
      let minutes := jsParseInt p0
      let secParts := splitPred (fun c => c == ',' || c == '.') p1
      let seconds := jsParseIntOpt secParts[0]?
      let ms := jsParseIntOpt secParts[1]?
      jsAdd (jsAdd (jsMul minutes (.val 60)) seconds) (jsDiv ms (.val 1000))
  | _ => .val 0

/-! ### Subtitle segments and the SRT/VTT parsers (`subtitleParser.ts`) -/

/-- The `SubtitleSegment` record of `types.ts`; `id` is the parser's counter. -/
structure SubtitleSegment where
  id : Nat
  startTime : JSVal
  endTime : JSVal
  text : List Char
deriving DecidableEq, Repr

/-- Line-ending normalization: `replace(/\r\n/g,'\n').replace(/\r/g,'\n')`. -/
def normalizeNewlines (data : List Char) : List Char :=
  replaceAll ['\r'] ['\n'] (replaceAll ['\r', '\n'] ['\n'] data)

/-- Split the normalized input into candidate cue blocks on blank lines. -/
def blocksOf (data : List Char) : List (List Char) :=
  splitOnList ['\n', '\n'] (normalizeNewlines data)

/-- The non-empty lines of a block: `block.split('\n').filter(l => l.trim() !== '')`. -/
def nonEmptyLines (block : List Char) : List (List Char) :=
  (splitOnList ['\n'] block).filter (fun l => !(trimList l).isEmpty)

/-- The literal `-->` searched for on the candidate time line. -/
def arrowChars : List Char := ['-', '-', '>']

/-- `timeLine.split(' --> ')` followed by the `!startStr || !endStr` guard:
both destructured halves must exist and be non-empty (truthy). -/
def splitTimeLine (timeLine : List Char) : Option (List Char × List Char) :=
  match splitOnList [' ', '-', '-', '>', ' '] timeLine with
  | s :: e :: _ => if s.isEmpty || e.isEmpty then none else some (s, e)
  | _ => none

/-- One SRT block, as in the `forEach` body of `parseSRT`: at least two
non-empty lines, `-->` on line 0 or line 1, a well-formed time line; yields
`(startTime, endTime, text)` or discards the block. -/
def srtBlockParse (block : List Char) : Option (JSVal × JSVal × List Char) :=
  let lines := nonEmptyLines block
  if 2 ≤ lines.length then
    let tli :=
      if listIncludes arrowChars lines[0]! then some 0
      else if listIncludes arrowChars lines[1]! then some 1
      else none
    match tli with
    | none => none
    | some k =>
        match splitTimeLine lines[k]! with
        | none => none
        | some (startStr, endStr) =>
            let text := stripTags (joinNL (lines.drop (k + 1)))
            some (timeToSeconds (trimList startStr), timeToSeconds (trimList endStr), text)
  else none

/-- `endStr.trim().split(' ')[0]` — strip VTT cue settings after the end time. -/
def firstSpaceToken (l : List Char) : List Char :=
  (splitOnList [' '] l).headD []

/-- One VTT block, as in the `forEach` body of `parseVTT`: discard empty blocks
and blocks whose first line starts with `WEBVTT`; then the same `-->` detection,
except that a second line need not exist; the end time drops trailing cue
settings. -/
def vttBlockParse (block : List Char) : Option (JSVal × JSVal × List Char) :=
  let lines := nonEmptyLines block
  if lines.length = 0 || matchesFront ['W', 'E', 'B', 'V', 'T', 'T'] lines[0]! then none
  else
    let tli :=
      if listIncludes arrowChars lines[0]! then some 0
      else if decide (2 ≤ lines.length) && listIncludes arrowChars lines[1]! then some 1
      else none
    match tli with
    | none => none
    | some k =>
        match splitTimeLine lines[k]! with
        | none => none
        | some (startStr, endStr) =>
            let text := stripTags (joinNL (lines.drop (k + 1)))
            some (timeToSeconds (trimList startStr),
              timeToSeconds (firstSpaceToken (trimList endStr)), text)

/-- The parse loop shared by `parseSRT` and `parseVTT`: walk the blocks with the
mutable `idCounter`, which advances only when a block yields a segment. -/
def parseGo (blockParse : List Char → Option (JSVal × JSVal × List Char)) :
    List (List Char) → Nat → List SubtitleSegment
  | [], _ => []
  | b :: rest, ctr =>
      match blockParse b with
      | some (s, e, t) => ⟨ctr, s, e, t⟩ :: parseGo blockParse rest (ctr + 1)
      | none => parseGo blockParse rest ctr

/-- `parseSRT` from `subtitleParser.ts`. -/
def parseSRT (data : List Char) : List SubtitleSegment :=
  parseGo srtBlockParse (blocksOf data) 1

/-- `parseVTT` from `subtitleParser.ts`. -/
def parseVTT (data : List Char) : List SubtitleSegment :=
  parseGo vttBlockParse (blocksOf data) 1

/-- Does `parseSRT` keep this block? -/
def srtAccepts (block : List Char) : Bool := (srtBlockParse block).isSome

/-- Does `parseVTT` keep this block? -/
def vttAccepts (block : List Char) : Bool := (vttBlockParse block).isSome

/-! ### Active-segment resolver (`SubtitleList.tsx`) -/

/-- JS `Array.prototype.findIndex`, with `none` for the -1 miss. -/
def findIndexAux {α : Type} (p : α → Bool) : List α → Nat → Option Nat
  | [], _ => none
  | a :: rest, k => if p a then some k else findIndexAux p rest (k + 1)

/-- The activity test `currentTime >= s.startTime && currentTime < s.endTime`. -/
def activePred (currentTime : JSVal) (s : SubtitleSegment) : Bool :=
  jsLe s.startTime currentTime && jsLt currentTime s.endTime

/-- `subtitles.findIndex(s => currentTime >= s.startTime && currentTime < s.endTime)`. -/
def findActive (subtitles : List SubtitleSegment) (currentTime : JSVal) : Option Nat :=
  findIndexAux (activePred currentTime) subtitles 0

/-! ### Karaoke progress estimator (`KaraokeText` in `SubtitleList.tsx`) -/

/-- `progress = Math.min(1, Math.max(0, currentTime - startTime) / (endTime - startTime))`,
exactly as computed, with no guard on the duration. -/
def karaokeProgress (startTime endTime currentTime : ℚ) : JSVal :=
  let duration := jsSub (.val endTime) (.val startTime)
  let elapsed := jsMax (.val 0) (jsSub (.val currentTime) (.val startTime))
  jsMin (.val 1) (jsDiv elapsed duration)

/-- `currentCharField = Math.floor(totalLength * progress)`. -/
def currentCharFieldOf (totalLength : Nat) (startTime endTime currentTime : ℚ) : JSVal :=
  jsFloor (jsMul (.val totalLength) (karaokeProgress startTime endTime currentTime))

/-- Per-word state: `isPast = endChar < currentCharField`. -/
def wordIsPast (endChar : Nat) (field : JSVal) : Bool :=
  jsLt (.val endChar) field

/-- Per-word state: `isCurrent = currentCharField >= startChar && currentCharField <= endChar`. -/
def wordIsCurrent (startChar endChar : Nat) (field : JSVal) : Bool :=
  jsLe (.val startChar) field && jsLe field (.val endChar)

/-! ### Translation batcher (`translateSubtitles` in `geminiService.ts`)

The external model call is abstracted into an oracle indexed by the batch's
start offset: `none` models a thrown error or an unparseable response, and
`some entries` models the parsed `{id, translation}` array. -/

/-- One parsed `{id, translation}` result entry. -/
structure TransEntry where
  id : Int
  translation : List Char
deriving DecidableEq, Repr

/-- The merge step: find the entry whose `id` matches the segment strictly by
`===`; on a match with a truthy (non-empty) translation, shallow-copy the
segment with `text + "\n" + translation`, otherwise keep the segment. -/
def mergeSegment (translatedData : List TransEntry) (segment : SubtitleSegment) :
    SubtitleSegment :=
  match translatedData.find? (fun t => t.id == (segment.id : Int)) with
  | some found =>
      if !found.translation.isEmpty then
        { segment with text := segment.text ++ '\n' :: found.translation }
      else segment
  | none => segment

/-- `processBatch`: on any batch failure return the batch unchanged, otherwise
map the merge step over the batch. -/
def processBatch (res : Option (List TransEntry)) (batch : List SubtitleSegment) :
    List SubtitleSegment :=
  match res with
  | none => batch
  | some translatedData => batch.map (mergeSegment translatedData)

/-- The sequential batch loop of `translateSubtitles`, from offset `i`:
slice out the next 15 segments, process them, accumulate the result, and
record the `onProgress(Math.min(i + 15, total), total)` call. -/
def translateLoop (oracle : Nat → Option (List TransEntry))
    (subtitles : List SubtitleSegment) (i : Nat) :
    List SubtitleSegment × List (Nat × Nat) :=
  if i < subtitles.length then
    let batch := (subtitles.drop i).take 15
    let processed := processBatch (oracle i) batch
    let rest := translateLoop oracle subtitles (i + 15)
    (processed ++ rest.1, (min (i + 15) subtitles.length, subtitles.length) :: rest.2)
  else ([], [])
termination_by subtitles.length - i
decreasing_by omega

/-- `translateSubtitles`: the final segment sequence together with the ordered
list of `onProgress` calls. -/
def translateSubtitles (oracle : Nat → Option (List TransEntry))
    (subtitles : List SubtitleSegment) : List SubtitleSegment × List (Nat × Nat) :=
  translateLoop oracle subtitles 0

/-- Decimal value of a digit string, most significant digit first. -/
def natOfDigits (l : List Char) : Nat := l.foldl (fun acc c => acc * 10 + digitVal c) 0

/-! ### Arithmetic helper lemmas for the JS number model -/

theorem jsSub_val (a b : ℚ) : jsSub (.val a) (.val b) = .val (a - b) := by
  simp [jsSub, jsAdd, jsNeg, sub_eq_add_neg]

theorem jsMax_val (a b : ℚ) : jsMax (.val a) (.val b) = .val (max a b) := by
  by_cases h : a ≤ b
  · simp [jsMax, jsLe, h, max_eq_right h]
  · simp [jsMax, jsLe, h, max_eq_left (le_of_not_le h)]

theorem jsMin_val (a b : ℚ) : jsMin (.val a) (.val b) = .val (min a b) := by
  by_cases h : a ≤ b
  · simp [jsMin, jsLe, h, min_eq_left h]
  · simp [jsMin, jsLe, h, min_eq_right (le_of_not_le h)]

theorem jsDiv_val (a b : ℚ) (hb : b ≠ 0) : jsDiv (.val a) (.val b) = .val (a / b) := by
  simp [jsDiv, hb]

theorem jsAdd_val (a b : ℚ) : jsAdd (.val a) (.val b) = .val (a + b) := rfl

theorem jsMul_val (a b : ℚ) : jsMul (.val a) (.val b) = .val (a * b) := rfl

end NewsLingo

namespace NewsLingo

/-- C1 counterexample: at `startTime = endTime = currentTime = 0` the duration
is `0`, and the code computes `0 / 0 = NaN`; no guard defines progress as `1`. -/
theorem c1_counterexample :
    karaokeProgress 0 0 0 = JSVal.nan ∧ JSVal.nan ≠ JSVal.val 1 := by
  constructor
  · show jsMin _ (jsDiv (jsMax (.val 0) (jsSub (.val 0) (.val 0))) (jsSub (.val 0) (.val 0))) = _
    rw [jsSub_val, jsMax_val]
    norm_num [jsDiv, jsMin]
  · intro h
    exact JSVal.noConfusion h

/-- C1 amended: progress is `min(1, max(0, c−s)/(e−s))` with JS float
semantics and no guard for `duration ≤ 0`.  When the duration is nonzero the
clamped quotient is returned (so a negative duration can give a progress
`≤ 0`, not `1`).  When the duration is zero and `currentTime ≤ startTime`,
progress is NaN, and the NaN propagates into the per-word state: every word
tests neither past nor current.  When the duration is zero and
`currentTime > startTime`, progress is `1` (via division giving `+∞`). -/
theorem c1_karaoke_progress_unguarded (s e c : ℚ) :
    (e ≠ s → karaokeProgress s e c = .val (min 1 (max 0 (c - s) / (e - s)))) ∧
    (e = s → c ≤ s →
      karaokeProgress s e c = JSVal.nan ∧
      ∀ totalLength startChar endChar : Nat,
        wordIsPast endChar (currentCharFieldOf totalLength s e c) = false ∧
        wordIsCurrent startChar endChar (currentCharFieldOf totalLength s e c) = false) ∧
    (e = s → s < c → karaokeProgress s e c = .val 1) := by
  refine ⟨?_, ?_, ?_⟩
  · intro hne
    show jsMin _ (jsDiv (jsMax (.val 0) (jsSub (.val c) (.val s))) (jsSub (.val e) (.val s))) = _
    rw [jsSub_val, jsSub_val, jsMax_val, jsDiv_val _ _ (sub_ne_zero.mpr hne), jsMin_val]
  · intro he hc
    have hprog : karaokeProgress s e c = JSVal.nan := by
      show jsMin _ (jsDiv (jsMax (.val 0) (jsSub (.val c) (.val s))) (jsSub (.val e) (.val s))) = _
      rw [jsSub_val, jsSub_val, jsMax_val]
      have h1 : max 0 (c - s) = 0 := max_eq_left (by linarith)
      have h2 : e - s = 0 := by rw [he]; ring
      rw [h1, h2]
      norm_num [jsDiv, jsMin]
    refine ⟨hprog, fun totalLength startChar endChar => ?_⟩
    have hfield : currentCharFieldOf totalLength s e c = JSVal.nan := by
      unfold currentCharFieldOf
      rw [hprog]
      simp [jsMul, jsFloor]
    rw [hfield]
    constructor
    · simp [wordIsPast, jsLt]
    · simp [wordIsCurrent, jsLe]
  · intro he hc
    show jsMin _ (jsDiv (jsMax (.val 0) (jsSub (.val c) (.val s))) (jsSub (.val e) (.val s))) = _
    rw [jsSub_val, jsSub_val, jsMax_val]
    have h1 : max 0 (c - s) = c - s := max_eq_right (by linarith)
    have h2 : e - s = 0 := by rw [he]; ring
    have h3 : (0:ℚ) < c - s := by linarith
    rw [h1, h2]
    simp [jsDiv, jsMin, jsLe, sub_eq_zero, h3, ne_of_gt h3]

/-- C1 witness: the theorem applied at a regular segment, at the NaN corner,
and at the `+∞` corner. -/
theorem c1_witness :
    karaokeProgress 0 1 2 = .val (min 1 (max 0 ((2:ℚ) - 0) / (1 - 0))) ∧
    karaokeProgress 0 0 0 = JSVal.nan ∧
    karaokeProgress 0 0 1 = .val 1 :=
  ⟨(c1_karaoke_progress_unguarded 0 1 2).1 (by norm_num),
   ((c1_karaoke_progress_unguarded 0 0 0).2.1 rfl le_rfl).1,
   (c1_karaoke_progress_unguarded 0 0 1).2.2 rfl (by norm_num)⟩

/-- C2 counterexample: `"a:b:c"` is not a well-formed timestamp, yet
`timeToSeconds` returns NaN — a non-numeric value — rather than `0`. -/
theorem c2_counterexample :
    timeToSeconds "a:b:c".data = JSVal.nan ∧ JSVal.nan ≠ JSVal.val 0 := by
  decide

/-- C2 amended: the silent zero fallback applies exactly to inputs whose
colon-field count is neither 2 nor 3 — in particular `"not-a-time"` gives `0`
seconds — while a malformed input with 2 or 3 colon fields can instead give
NaN. -/
theorem c2_zero_fallback :
    (∀ s : List Char,
      (splitOnList [':'] s).length ≠ 2 → (splitOnList [':'] s).length ≠ 3 →
      timeToSeconds s = .val 0) ∧
    timeToSeconds "not-a-time".data = .val 0 := by
  constructor
  · intro s h2 h3
    unfold timeToSeconds
    rcases hp : splitOnList [':'] s with _ | ⟨a, tl⟩
    · simp [hp]
    rcases tl with _ | ⟨b, tl2⟩
    · simp [hp]
    rcases tl2 with _ | ⟨c, tl3⟩
    · exact absurd (by rw [hp]; rfl) h2
    rcases tl3 with _ | ⟨d, tl4⟩
    · exact absurd (by rw [hp]; rfl) h3
    simp [hp]
  · decide

/-- C2 witness: the fallback theorem applied to a colon-free input. -/
theorem c2_witness : timeToSeconds "justwords".data = .val 0 :=
  c2_zero_fallback.1 "justwords".data (by decide) (by decide)

/-! ### `parseInt` on digit strings -/

theorem isDigit_not_isWhitespace (c : Char) (h : c.isDigit = true) :
    c.isWhitespace = false := by
  rcases Bool.eq_false_or_eq_true c.isWhitespace with hw | hw
  swap
  · exact hw
  · exfalso
    unfold Char.isWhitespace at hw
    rw [Bool.or_eq_true, Bool.or_eq_true, Bool.or_eq_true] at hw
    rcases hw with ((hc | hc) | hc) | hc <;>
      (rw [decide_eq_true_eq] at hc; subst hc; exact absurd h (by decide))

theorem leadingDigitsAux_all (l : List Char) :
    ∀ acc, l.all Char.isDigit = true →
      leadingDigitsAux l acc = l.foldl (fun a c => a * 10 + digitVal c) acc := by
  induction l with
  | nil => intro acc _; rfl
  | cons c rest ih =>
      intro acc hall
      rw [List.all_cons, Bool.and_eq_true] at hall
      simp only [leadingDigitsAux, hall.1, if_true, List.foldl_cons]
      exact ih _ hall.2

/-- On a non-empty all-digit string, JS `parseInt` returns its decimal value. -/
theorem jsParseInt_digits (l : List Char) (hne : l ≠ [])
    (hall : l.all Char.isDigit = true) : jsParseInt l = .val (natOfDigits l) := by
  rcases l with _ | ⟨c, rest⟩
  · exact absurd rfl hne
  rw [List.all_cons, Bool.and_eq_true] at hall
  unfold jsParseInt
  rw [List.dropWhile_cons, isDigit_not_isWhitespace c hall.1]
  simp only [Bool.false_eq_true, if_false]
  split
  · rename_i heq
    rw [List.cons.injEq] at heq
    exact absurd hall.1 (by rw [heq.1]; decide)
  · rename_i heq
    rw [List.cons.injEq] at heq
    exact absurd hall.1 (by rw [heq.1]; decide)
  · simp only [jsParseIntCore, hall.1, if_true, JSVal.val.injEq]
    rw [leadingDigitsAux_all rest _ hall.2]
    simp [natOfDigits, digitVal]

/-- C9: on every timestamp whose colon-split has three fields, with numeric
components, `timeToSeconds` computes
`hours*3600 + minutes*60 + seconds + milliseconds/1000` after splitting the
last field on `,` or `.`; in particular `"01:02:03,004"` gives `3723.004`
and `"02:03,004"` gives `123.004`. -/
theorem c9_timestamp_formula :
    (∀ (s p0 p1 p2 g0 g1 : List Char) (grest : List (List Char)),
      splitOnList [':'] s = [p0, p1, p2] →
      splitPred (fun c => c == ',' || c == '.') p2 = g0 :: g1 :: grest →
      p0 ≠ [] → p0.all Char.isDigit = true →
      p1 ≠ [] → p1.all Char.isDigit = true →
      g0 ≠ [] → g0.all Char.isDigit = true →
      g1 ≠ [] → g1.all Char.isDigit = true →
      timeToSeconds s =
        .val ((natOfDigits p0 : ℚ) * 3600 + (natOfDigits p1 : ℚ) * 60 +
          (natOfDigits g0 : ℚ) + (natOfDigits g1 : ℚ) / 1000)) ∧
    timeToSeconds "01:02:03,004".data = .val (mkRat 3723004 1000) ∧
    timeToSeconds "02:03,004".data = .val (mkRat 123004 1000) := by
  have hgen : ∀ (s p0 p1 p2 g0 g1 : List Char) (grest : List (List Char)),
      splitOnList [':'] s = [p0, p1, p2] →
      splitPred (fun c => c == ',' || c == '.') p2 = g0 :: g1 :: grest →
      p0 ≠ [] → p0.all Char.isDigit = true →
      p1 ≠ [] → p1.all Char.isDigit = true →
      g0 ≠ [] → g0.all Char.isDigit = true →
      g1 ≠ [] → g1.all Char.isDigit = true →
      timeToSeconds s =
        .val ((natOfDigits p0 : ℚ) * 3600 + (natOfDigits p1 : ℚ) * 60 +
          (natOfDigits g0 : ℚ) + (natOfDigits g1 : ℚ) / 1000) := by
    intro s p0 p1 p2 g0 g1 grest hsplit hsec hne0 hd0 hne1 hd1 hne2 hd2 hne3 hd3
    unfold timeToSeconds
    simp only [hsplit, hsec]
    simp only [List.getElem?_cons_succ, List.getElem?_cons_zero]
    show jsAdd (jsAdd (jsAdd (jsMul (jsParseInt p0) _) (jsMul (jsParseInt p1) _))
      (jsParseInt g0)) (jsDiv (jsParseInt g1) _) = _
    rw [jsParseInt_digits p0 hne0 hd0, jsParseInt_digits p1 hne1 hd1,
      jsParseInt_digits g0 hne2 hd2, jsParseInt_digits g1 hne3 hd3,
      jsMul_val, jsMul_val, jsAdd_val, jsAdd_val, jsDiv_val _ _ (by norm_num), jsAdd_val]
  refine ⟨hgen, ?_, ?_⟩
  · have h := hgen "01:02:03,004".data ['0', '1'] ['0', '2'] "03,004".data
      ['0', '3'] "004".data [] (by decide) (by decide) (by decide) (by decide)
      (by decide) (by decide) (by decide) (by decide) (by decide) (by decide)
    rw [h, show natOfDigits ['0', '1'] = 1 from rfl, show natOfDigits ['0', '2'] = 2 from rfl,
      show natOfDigits ['0', '3'] = 3 from rfl, show natOfDigits "004".data = 4 from rfl]
    rw [Rat.mkRat_eq_divInt, Rat.divInt_eq_div, JSVal.val.injEq]
    norm_num
  · have hsplit : splitOnList [':'] "02:03,004".data = [['0', '2'], "03,004".data] := by decide
    have hsec : splitPred (fun c => c == ',' || c == '.') "03,004".data =
        [['0', '3'], "004".data] := by decide
    unfold timeToSeconds
    simp only [hsplit, hsec]
    simp only [List.getElem?_cons_succ, List.getElem?_cons_zero]
    show jsAdd (jsAdd (jsMul (jsParseInt ['0', '2']) _) (jsParseInt ['0', '3']))
      (jsDiv (jsParseInt "004".data) _) = _
    rw [jsParseInt_digits ['0', '2'] (by decide) (by decide),
      jsParseInt_digits ['0', '3'] (by decide) (by decide),
      jsParseInt_digits "004".data (by decide) (by decide),
      jsMul_val, jsAdd_val, jsDiv_val _ _ (by norm_num), jsAdd_val]
    rw [show natOfDigits ['0', '2'] = 2 from rfl, show natOfDigits ['0', '3'] = 3 from rfl,
      show natOfDigits "004".data = 4 from rfl]
    rw [Rat.mkRat_eq_divInt, Rat.divInt_eq_div, JSVal.val.injEq]
    norm_num

/-- C9 witness: the formula applied to `"01:02:03,004"`. -/
theorem c9_witness :
    timeToSeconds "01:02:03,004".data =
      .val ((natOfDigits ['0', '1'] : ℚ) * 3600 + (natOfDigits ['0', '2'] : ℚ) * 60 +
        (natOfDigits ['0', '3'] : ℚ) + (natOfDigits "004".data : ℚ) / 1000) :=
  c9_timestamp_formula.1 "01:02:03,004".data ['0', '1'] ['0', '2'] "03,004".data
    ['0', '3'] "004".data [] (by decide) (by decide) (by decide) (by decide)
    (by decide) (by decide) (by decide) (by decide) (by decide) (by decide)

/-! ### C3: VTT block detection versus SRT block detection -/

/-- C3 counterexample: a single-line block whose only line is a time line is
accepted by the VTT parser but rejected by the SRT parser, so VTT detection is
not identical to the SRT rule's two-line requirement. -/
theorem c3_counterexample :
    vttAccepts "00:01.000 --> 00:02.000".data = true ∧
    (nonEmptyLines "00:01.000 --> 00:02.000".data).length = 1 ∧
    srtAccepts "00:01.000 --> 00:02.000".data = false := by
  decide

/-- C3 amended: on blocks with at least two non-empty lines whose first line
does not start with `WEBVTT`, VTT acceptance coincides with SRT acceptance;
but VTT only discards empty blocks (not one-line blocks) and `WEBVTT` headers,
while SRT acceptance always requires at least two non-empty lines. -/
theorem c3_vtt_vs_srt_detection :
    (∀ block : List Char, 2 ≤ (nonEmptyLines block).length →
      matchesFront ['W', 'E', 'B', 'V', 'T', 'T'] ((nonEmptyLines block)[0]!) = false →
      vttAccepts block = srtAccepts block) ∧
    (∀ block : List Char, (nonEmptyLines block).length = 0 → vttAccepts block = false) ∧
    (∀ block : List Char,
      matchesFront ['W', 'E', 'B', 'V', 'T', 'T'] ((nonEmptyLines block)[0]!) = true →
      vttAccepts block = false) ∧
    (∀ block : List Char, srtAccepts block = true → 2 ≤ (nonEmptyLines block).length) ∧
    vttAccepts "00:01.000 --> 00:02.000".data = true := by
  refine ⟨?_, ?_, ?_, ?_, by decide⟩
  · intro block h2 hW
    unfold vttAccepts srtAccepts vttBlockParse srtBlockParse
    have hlen : ¬((nonEmptyLines block).length = 0) := by omega
    simp only [hlen, hW, h2, if_true, if_pos h2, decide_True, decide_False,
      Bool.false_or, Bool.or_self, Bool.false_eq_true, if_false, Bool.true_and]
    by_cases h0 : listIncludes arrowChars ((nonEmptyLines block)[0]!) = true
    · simp only [h0, if_true]
      rcases hst : splitTimeLine ((nonEmptyLines block)[0]!) with _ | ⟨s, e⟩ <;>
        simp [hst]
    · rw [Bool.not_eq_true] at h0
      simp only [h0, Bool.false_eq_true, if_false]
      by_cases h1 : listIncludes arrowChars ((nonEmptyLines block)[1]!) = true
      · simp only [h1, if_true]
        rcases hst : splitTimeLine ((nonEmptyLines block)[1]!) with _ | ⟨s, e⟩ <;>
          simp [hst]
      · rw [Bool.not_eq_true] at h1
        simp [h0, h1]
  · intro block hlen
    unfold vttAccepts vttBlockParse
    simp [hlen]
  · intro block hW
    unfold vttAccepts vttBlockParse
    simp [hW]
  · intro block hacc
    unfold srtAccepts srtBlockParse at hacc
    by_cases h2 : 2 ≤ (nonEmptyLines block).length
    · exact h2
    · simp [h2] at hacc

/-- C3 witness: the coincidence of VTT and SRT acceptance applied to a
two-line block. -/
theorem c3_witness :
    vttAccepts "1\n00:01.000 --> 00:02.000".data =
      srtAccepts "1\n00:01.000 --> 00:02.000".data :=
  c3_vtt_vs_srt_detection.1 "1\n00:01.000 --> 00:02.000".data (by decide) (by decide)

/-! ### C4: the active-segment resolver -/

/-- `findIndex` characterization: the returned index is offset by the start
counter, its element satisfies the test, and every earlier element fails it. -/
theorem findIndexAux_some_iff {α : Type} (p : α → Bool) :
    ∀ (l : List α) (k n : Nat),
      findIndexAux p l k = some n ↔
        ∃ j, n = k + j ∧ (∃ s, l[j]? = some s ∧ p s = true) ∧
          ∀ m t, m < j → l[m]? = some t → p t = false := by
  intro l
  induction l with
  | nil =>
      intro k n
      simp [findIndexAux]
  | cons a rest ih =>
      intro k n
      by_cases hp : p a = true
      · simp only [findIndexAux, hp, if_true]
        constructor
        · rintro h
          rw [Option.some.injEq] at h
          exact ⟨0, by omega, ⟨a, List.getElem?_cons_zero, hp⟩,
            fun m t hm => absurd hm (Nat.not_lt_zero m)⟩
        · rintro ⟨j, hn, ⟨s, hs, hps⟩, hmin⟩
          cases j with
          | zero => rw [Option.some.injEq]; omega
          | succ j' =>
              exact absurd hp
                (by simpa using hmin 0 a (Nat.succ_pos j') List.getElem?_cons_zero)
      · rw [Bool.not_eq_true] at hp
        simp only [findIndexAux, hp, Bool.false_eq_true, if_false]
        rw [ih (k + 1) n]
        constructor
        · rintro ⟨j, hn, ⟨s, hs, hps⟩, hmin⟩
          refine ⟨j + 1, by omega, ⟨s, by simpa using hs, hps⟩, ?_⟩
          intro m t hm ht
          cases m with
          | zero =>
              rw [List.getElem?_cons_zero, Option.some.injEq] at ht
              rw [← ht]; exact hp
          | succ m' =>
              rw [List.getElem?_cons_succ] at ht
              exact hmin m' t (by omega) ht
        · rintro ⟨j, hn, ⟨s, hs, hps⟩, hmin⟩
          cases j with
          | zero =>
              rw [List.getElem?_cons_zero, Option.some.injEq] at hs
              exact absurd hps (by rw [hs] at hp; simp [hp])
          | succ j' =>
              refine ⟨j', by omega, ⟨s, by simpa using hs, hps⟩, ?_⟩
              intro m t hm ht
              exact hmin (m + 1) t (by omega) (by simpa using ht)

/-- The two demo segments of the specification's half-open activation example. -/
def demoSegments : List SubtitleSegment :=
  [⟨1, .val 0, .val 2, []⟩, ⟨2, .val 2, .val 4, []⟩]

/-- C4: `findActive` returns `some i` exactly when segment `i` satisfies the
half-open test `startTime <= t < endTime` and every earlier segment fails it
(first match wins); and on the demo track, time `2` activates index 1,
time `1.999` activates index 0, and time `4` activates nothing. -/
theorem c4_active_segment :
    (∀ (subtitles : List SubtitleSegment) (t : JSVal) (i : Nat),
      findActive subtitles t = some i ↔
        (∃ s, subtitles[i]? = some s ∧ (jsLe s.startTime t && jsLt t s.endTime) = true) ∧
        ∀ j s, j < i → subtitles[j]? = some s →
          (jsLe s.startTime t && jsLt t s.endTime) = false) ∧
    findActive demoSegments (.val 2) = some 1 ∧
    findActive demoSegments (.val (mkRat 1999 1000)) = some 0 ∧
    findActive demoSegments (.val 4) = none := by
  refine ⟨?_, by decide, by decide, by decide⟩
  intro subtitles t i
  unfold findActive
  rw [findIndexAux_some_iff]
  constructor
  · rintro ⟨j, hij, hex, hmin⟩
    have : j = i := by omega
    subst this
    exact ⟨hex, fun j s hj hs => hmin j s hj hs⟩
  · rintro ⟨hex, hmin⟩
    exact ⟨i, by omega, hex, fun m s hm hs => hmin m s hm hs⟩

/-- C4 witness: the characterization applied to the demo track at time `0`. -/
theorem c4_witness : findActive demoSegments (.val 0) = some 0 :=
  (c4_active_segment.1 demoSegments (.val 0) 0).mpr
    ⟨⟨⟨1, .val 0, .val 2, []⟩, rfl, by decide⟩,
     fun j s hj _ => absurd hj (Nat.not_lt_zero j)⟩

/-! ### C5: parse-order ids -/

/-- The parse loop emits one segment per accepted block, in block order, with
consecutive ids starting at the given counter. -/
theorem parseGo_spec (f : List Char → Option (JSVal × JSVal × List Char)) :
    ∀ (bs : List (List Char)) (ctr : Nat),
      (parseGo f bs ctr).map SubtitleSegment.id =
        List.range' ctr (parseGo f bs ctr).length ∧
      (parseGo f bs ctr).length = bs.countP (fun b => (f b).isSome) ∧
      (parseGo f bs ctr).map (fun sg => (sg.startTime, sg.endTime, sg.text)) =
        bs.filterMap f := by
  intro bs
  induction bs with
  | nil => intro ctr; simp [parseGo]
  | cons b rest ih =>
      intro ctr
      rcases hf : f b with _ | ⟨s, e, t⟩
      · simp only [parseGo, hf]
        refine ⟨(ih ctr).1, ?_, ?_⟩
        · rw [(ih ctr).2.1, List.countP_cons, hf]
          simp
        · rw [(ih ctr).2.2, List.filterMap_cons_none hf]
      · simp only [parseGo, hf]
        refine ⟨?_, ?_, ?_⟩
        · simp only [List.map_cons, List.length_cons]
          rw [(ih (ctr + 1)).1, List.range'_succ]
        · simp only [List.length_cons]
          rw [(ih (ctr + 1)).2.1, List.countP_cons, hf]
          simp
        · simp only [List.map_cons]
          rw [(ih (ctr + 1)).2.2, List.filterMap_cons_some hf]

/-- C5: for both formats, the parse result has exactly one segment per
accepted block, ids are the consecutive run `1..N` regardless of any source
index (so skipping a malformed block leaves no gap), and the segment payloads
are the accepted blocks' parses in source block order. -/
theorem c5_ids_contiguous :
    (∀ data : List Char,
      (parseSRT data).map SubtitleSegment.id = List.range' 1 (parseSRT data).length ∧
      (parseSRT data).length = (blocksOf data).countP srtAccepts ∧
      (parseSRT data).map (fun sg => (sg.startTime, sg.endTime, sg.text)) =
        (blocksOf data).filterMap srtBlockParse) ∧
    (∀ data : List Char,
      (parseVTT data).map SubtitleSegment.id = List.range' 1 (parseVTT data).length ∧
      (parseVTT data).length = (blocksOf data).countP vttAccepts ∧
      (parseVTT data).map (fun sg => (sg.startTime, sg.endTime, sg.text)) =
        (blocksOf data).filterMap vttBlockParse) := by
  constructor
  · intro data
    have h := parseGo_spec srtBlockParse (blocksOf data) 1
    exact ⟨h.1, h.2.1, h.2.2⟩
  · intro data
    have h := parseGo_spec vttBlockParse (blocksOf data) 1
    exact ⟨h.1, h.2.1, h.2.2⟩

/-! ### C6: merging translations by id -/

/-- C6 counterexample: an entry whose `id` matches but whose translation is
the empty string is found, yet the merge leaves the segment's text unchanged
instead of appending the claimed `"\n" + translation`. -/
theorem c6_counterexample :
    processBatch (some [⟨1, []⟩]) [⟨1, .val 0, .val 1, "hello".data⟩] =
      [⟨1, .val 0, .val 1, "hello".data⟩] ∧
    ([(⟨1, []⟩ : TransEntry)].find? (fun t => t.id == ((1 : Nat) : Int))) =
      some ⟨1, []⟩ ∧
    "hello".data ≠ "hello".data ++ '\n' :: ([] : List Char) := by
  decide

/-- C6 amended: results are matched strictly by id — a segment with no
matching entry passes through unchanged; a segment whose first matching entry
has a non-empty translation gets `originalText + "\n" + translation` with all
other fields untouched; and a matching entry with an empty (falsy) translation
also leaves the segment unchanged. -/
theorem c6_id_matching (translatedData : List TransEntry)
    (batch : List SubtitleSegment) (k : Nat) (seg : SubtitleSegment)
    (hk : batch[k]? = some seg) :
    (processBatch (some translatedData) batch).length = batch.length ∧
    ((∀ e ∈ translatedData, e.id ≠ (seg.id : Int)) →
      (processBatch (some translatedData) batch)[k]? = some seg) ∧
    (∀ e, translatedData.find? (fun t => t.id == (seg.id : Int)) = some e →
      e.translation ≠ [] →
      (processBatch (some translatedData) batch)[k]? =
        some { seg with text := seg.text ++ '\n' :: e.translation }) ∧
    (∀ e, translatedData.find? (fun t => t.id == (seg.id : Int)) = some e →
      e.translation = [] →
      (processBatch (some translatedData) batch)[k]? = some seg) := by
  refine ⟨by simp [processBatch], ?_, ?_, ?_⟩
  · intro hnone
    have hfind : translatedData.find? (fun t => t.id == (seg.id : Int)) = none := by
      rw [List.find?_eq_none]
      intro e he
      simpa using hnone e he
    simp only [processBatch, List.getElem?_map, hk, Option.map_some']
    rw [mergeSegment.eq_def, hfind]
  · intro e hfind hne
    simp only [processBatch, List.getElem?_map, hk, Option.map_some']
    have hemp : e.translation.isEmpty = false := by
      cases he : e.translation with
      | nil => exact absurd he hne
      | cons c rest => rfl
    rw [mergeSegment.eq_def, hfind]
    simp only [hemp, Bool.not_false, if_true]
  · intro e hfind he
    simp only [processBatch, List.getElem?_map, hk, Option.map_some']
    rw [mergeSegment.eq_def, hfind]
    simp [he]

/-- C6 witness: the merge theorem applied to a one-segment batch whose id is
matched with a non-empty translation. -/
theorem c6_witness :
    (processBatch (some [⟨1, "bonjour".data⟩]) [⟨1, .val 0, .val 1, "hi".data⟩])[0]? =
      some { id := 1, startTime := .val 0, endTime := .val 1,
             text := "hi".data ++ '\n' :: "bonjour".data } :=
  (c6_id_matching [⟨1, "bonjour".data⟩] [⟨1, .val 0, .val 1, "hi".data⟩] 0
    ⟨1, .val 0, .val 1, "hi".data⟩ (by decide)).2.2.1
    ⟨1, "bonjour".data⟩ (by decide) (by decide)

/-! ### The batch loop of `translateSubtitles` -/

theorem processBatch_length (r : Option (List TransEntry)) (b : List SubtitleSegment) :
    (processBatch r b).length = b.length := by
  cases r <;> simp [processBatch]

theorem translateLoop_unfold (o : Nat → Option (List TransEntry))
    (s : List SubtitleSegment) (i : Nat) :
    translateLoop o s i =
      if i < s.length then
        (processBatch (o i) ((s.drop i).take 15) ++ (translateLoop o s (i + 15)).1,
         (min (i + 15) s.length, s.length) :: (translateLoop o s (i + 15)).2)
      else ([], []) := by
  rw [translateLoop]

theorem translateLoop_length (o : Nat → Option (List TransEntry))
    (s : List SubtitleSegment) : ∀ i, (translateLoop o s i).1.length = s.length - i := by
  have H : ∀ n i, s.length - i ≤ n → (translateLoop o s i).1.length = s.length - i := by
    intro n
    induction n with
    | zero =>
        intro i h
        rw [translateLoop_unfold, if_neg (by omega)]
        simp
        omega
    | succ n ihn =>
        intro i h
        by_cases hlt : i < s.length
        · rw [translateLoop_unfold, if_pos hlt]
          simp only [List.length_append]
          rw [processBatch_length, ihn (i + 15) (by omega)]
          simp only [List.length_take, List.length_drop]
          omega
        · rw [translateLoop_unfold, if_neg hlt]
          simp
          omega
  exact fun i => H (s.length - i) i le_rfl

theorem translateLoop_shift (o : Nat → Option (List TransEntry))
    (s : List SubtitleSegment) (i : Nat) :
    ((translateLoop o s i).1).drop 15 = (translateLoop o s (i + 15)).1 := by
  by_cases hlt : i < s.length
  · rw [translateLoop_unfold o s i, if_pos hlt]
    by_cases h15 : 15 ≤ s.length - i
    · have hplen : (processBatch (o i) ((s.drop i).take 15)).length = 15 := by
        rw [processBatch_length]
        simp only [List.length_take, List.length_drop]
        omega
      exact List.drop_left' hplen
    · have hrest : (translateLoop o s (i + 15)).1 = [] := by
        rw [translateLoop_unfold, if_neg (by omega)]
      rw [hrest, List.append_nil]
      apply List.drop_eq_nil_of_le
      rw [processBatch_length]
      simp only [List.length_take, List.length_drop]
      omega
  · rw [translateLoop_unfold o s i, if_neg hlt,
      translateLoop_unfold o s (i + 15), if_neg (by omega)]
    rfl

theorem translateSubtitles_drop (o : Nat → Option (List TransEntry))
    (s : List SubtitleSegment) :
    ∀ m, ((translateSubtitles o s).1).drop (15 * m) = (translateLoop o s (15 * m)).1 := by
  intro m
  induction m with
  | zero => simp [translateSubtitles]
  | succ m ihm =>
      rw [show 15 * (m + 1) = 15 * m + 15 from by ring, ← List.drop_drop 15 (15 * m),
        ihm, translateLoop_shift]

/-- The frame property: a processed segment keeps its id, start and end time,
and its text is either unchanged or extended by a newline and a translation. -/
def keepsFrame (a c : SubtitleSegment) : Prop :=
  c.id = a.id ∧ c.startTime = a.startTime ∧ c.endTime = a.endTime ∧
    (c.text = a.text ∨ ∃ tr, c.text = a.text ++ '\n' :: tr)

theorem mergeSegment_keepsFrame (d : List TransEntry) (seg : SubtitleSegment) :
    keepsFrame seg (mergeSegment d seg) := by
  rw [keepsFrame, mergeSegment.eq_def]
  rcases hf : d.find? (fun t => t.id == (seg.id : Int)) with _ | e
  · rw [hf]
    simp
  · rw [hf]
    by_cases he : e.translation.isEmpty = true
    · simp [he]
    · have he' : e.translation.isEmpty = false := by
        cases hb : e.translation.isEmpty
        · rfl
        · exact absurd hb he
      simp only [he', Bool.not_false, if_true]
      refine ⟨by simp, by simp, by simp, Or.inr ⟨e.translation, by simp⟩⟩

theorem processBatch_keepsFrame (r : Option (List TransEntry)) (b : List SubtitleSegment) :
    List.Forall₂ keepsFrame b (processBatch r b) := by
  cases r with
  | none =>
      simp only [processBatch]
      exact List.forall₂_same.mpr fun x _ => ⟨rfl, rfl, rfl, Or.inl rfl⟩
  | some d =>
      simp only [processBatch]
      rw [List.forall₂_map_right_iff]
      exact List.forall₂_same.mpr fun x _ => mergeSegment_keepsFrame d x

theorem translateLoop_keepsFrame (o : Nat → Option (List TransEntry))
    (s : List SubtitleSegment) :
    ∀ n i, s.length - i ≤ n →
      List.Forall₂ keepsFrame (s.drop i) ((translateLoop o s i).1) := by
  intro n
  induction n with
  | zero =>
      intro i h
      rw [List.drop_eq_nil_of_le (by omega), translateLoop_unfold, if_neg (by omega)]
      exact List.Forall₂.nil
  | succ n ihn =>
      intro i h
      by_cases hlt : i < s.length
      · rw [translateLoop_unfold, if_pos hlt]
        have hsplit : s.drop i = (s.drop i).take 15 ++ s.drop (i + 15) := by
          rw [← List.drop_drop 15 i s, List.take_append_drop]
        have happ := List.rel_append (processBatch_keepsFrame (o i) ((s.drop i).take 15))
          (ihn (i + 15) (by omega))
        simp only [] at happ
        rw [← hsplit] at happ
        exact happ
      · rw [List.drop_eq_nil_of_le (by omega), translateLoop_unfold, if_neg hlt]
        exact List.Forall₂.nil

/-! ### C7: per-batch failure isolation -/

/-- C7: `translateSubtitles` always returns as many segments as it was given,
in the same order (pointwise equal ids), and a batch whose external call fails
(oracle `none`) passes through unmodified in place, while the loop continues
with the other batches. -/
theorem c7_batch_failure_isolated (oracle : Nat → Option (List TransEntry))
    (subs : List SubtitleSegment) :
    (translateSubtitles oracle subs).1.length = subs.length ∧
    List.Forall₂ (fun a b : SubtitleSegment => b.id = a.id) subs
      (translateSubtitles oracle subs).1 ∧
    ∀ m : Nat, oracle (15 * m) = none →
      ((translateSubtitles oracle subs).1.drop (15 * m)).take 15 =
        (subs.drop (15 * m)).take 15 := by
  refine ⟨?_, ?_, ?_⟩
  · have h := translateLoop_length oracle subs 0
    simpa [translateSubtitles] using h
  · have h := translateLoop_keepsFrame oracle subs subs.length 0 (by omega)
    rw [List.drop_zero] at h
    exact h.imp fun a b hk => hk.1
  · intro m hm
    rw [translateSubtitles_drop]
    by_cases hlt : 15 * m < subs.length
    · rw [translateLoop_unfold, if_pos hlt, hm]
      rw [show processBatch none ((subs.drop (15 * m)).take 15) =
        (subs.drop (15 * m)).take 15 from rfl]
      by_cases h15 : 15 ≤ subs.length - 15 * m
      · have hblen : ((subs.drop (15 * m)).take 15).length = 15 := by
          simp only [List.length_take, List.length_drop]
          omega
        exact List.take_left' hblen
      · have hrest : (translateLoop oracle subs (15 * m + 15)).1 = [] := by
          rw [translateLoop_unfold, if_neg (by omega)]
        rw [hrest, List.append_nil]
        exact List.take_of_length_le (by simp only [List.length_take, List.length_drop]; omega)
    · rw [translateLoop_unfold, if_neg hlt]
      have hnil : subs.drop (15 * m) = [] := List.drop_eq_nil_of_le (by omega)
      simp [hnil]

/-- C7 witness: a run whose only batch fails returns the input unchanged. -/
theorem c7_witness :
    (translateSubtitles (fun _ => none) [⟨1, .val 0, .val 1, []⟩]).1.length =
      ([⟨1, .val 0, .val 1, []⟩] : List SubtitleSegment).length ∧
    ((translateSubtitles (fun _ => none) [⟨1, .val 0, .val 1, []⟩]).1.drop (15 * 0)).take 15 =
      (([⟨1, .val 0, .val 1, []⟩] : List SubtitleSegment).drop (15 * 0)).take 15 :=
  ⟨(c7_batch_failure_isolated (fun _ => none) [⟨1, .val 0, .val 1, []⟩]).1,
   (c7_batch_failure_isolated (fun _ => none) [⟨1, .val 0, .val 1, []⟩]).2.2 0 rfl⟩

/-! ### C8: progress reporting -/

/-- The sequence of `onProgress` arguments emitted from offset `i` on. -/
def progressCalls (total i : Nat) : List (Nat × Nat) :=
  if i < total then (min (i + 15) total, total) :: progressCalls total (i + 15) else []
termination_by total - i
decreasing_by omega

theorem progressCalls_pos (total i : Nat) (h : i < total) :
    progressCalls total i = (min (i + 15) total, total) :: progressCalls total (i + 15) := by
  rw [progressCalls, if_pos h]

theorem progressCalls_neg (total i : Nat) (h : ¬i < total) : progressCalls total i = [] := by
  rw [progressCalls, if_neg h]

theorem translateLoop_calls (o : Nat → Option (List TransEntry))
    (s : List SubtitleSegment) : ∀ i, (translateLoop o s i).2 = progressCalls s.length i := by
  have H : ∀ n i, s.length - i ≤ n → (translateLoop o s i).2 = progressCalls s.length i := by
    intro n
    induction n with
    | zero =>
        intro i h
        rw [translateLoop_unfold, if_neg (by omega), progressCalls_neg _ _ (by omega)]
    | succ n ihn =>
        intro i h
        by_cases hlt : i < s.length
        · rw [translateLoop_unfold, if_pos hlt, progressCalls_pos _ _ hlt]
          exact congrArg _ (ihn (i + 15) (by omega))
        · rw [translateLoop_unfold, if_neg hlt, progressCalls_neg _ _ hlt]
  exact fun i => H (s.length - i) i le_rfl

theorem progressCalls_length (total : Nat) :
    ∀ n i, total - i ≤ n → (progressCalls total i).length = (total - i + 14) / 15 := by
  intro n
  induction n with
  | zero =>
      intro i h
      rw [progressCalls_neg _ _ (by omega)]
      simp
      omega
  | succ n ihn =>
      intro i h
      by_cases hlt : i < total
      · rw [progressCalls_pos _ _ hlt]
        simp only [List.length_cons]
        rw [ihn (i + 15) (by omega)]
        omega
      · rw [progressCalls_neg _ _ hlt]
        simp
        omega

theorem progressCalls_get (total : Nat) :
    ∀ n i j p, total - i ≤ n → (progressCalls total i)[j]? = some p →
      p = (min (i + (j + 1) * 15) total, total) := by
  intro n
  induction n with
  | zero =>
      intro i j p h hp
      rw [progressCalls_neg _ _ (by omega)] at hp
      simp at hp
  | succ n ihn =>
      intro i j p h hp
      by_cases hlt : i < total
      · rw [progressCalls_pos _ _ hlt] at hp
        cases j with
        | zero =>
            rw [List.getElem?_cons_zero, Option.some.injEq] at hp
            rw [← hp]
        | succ j' =>
            rw [List.getElem?_cons_succ] at hp
            have := ihn (i + 15) j' p (by omega) hp
            rw [this]
            have harith : i + 15 + (j' + 1) * 15 = i + (j' + 1 + 1) * 15 := by ring
            rw [harith]
      · rw [progressCalls_neg _ _ hlt] at hp
        simp at hp

theorem progressCalls_chain (total : Nat) :
    ∀ n i, total - i ≤ n →
      List.Chain' (fun a b : Nat × Nat => a.1 ≤ b.1) (progressCalls total i) := by
  intro n
  induction n with
  | zero =>
      intro i h
      rw [progressCalls_neg _ _ (by omega)]
      exact List.chain'_nil
  | succ n ihn =>
      intro i h
      by_cases hlt : i < total
      · rw [progressCalls_pos _ _ hlt, List.chain'_cons']
        refine ⟨?_, ihn (i + 15) (by omega)⟩
        intro y hy
        by_cases hlt2 : i + 15 < total
        · rw [progressCalls_pos _ _ hlt2] at hy
          simp only [List.head?_cons, Option.mem_def, Option.some.injEq] at hy
          rw [← hy]
          simp only []
          omega
        · rw [progressCalls_neg _ _ hlt2] at hy
          simp at hy
      · rw [progressCalls_neg _ _ hlt]
        exact List.chain'_nil

theorem progressCalls_getLast (total : Nat) :
    ∀ n i, total - i ≤ n → i < total →
      ((progressCalls total i).map Prod.fst).getLast? = some total := by
  intro n
  induction n with
  | zero => intro i h hlt; omega
  | succ n ihn =>
      intro i h hlt
      rw [progressCalls_pos _ _ hlt]
      rcases hpc : progressCalls total (i + 15) with _ | ⟨c2, rest2⟩
      · have hge : ¬i + 15 < total := by
          intro hcon
          rw [progressCalls_pos _ _ hcon] at hpc
          exact List.noConfusion hpc
        simp only [List.map_cons, List.map_nil, List.getLast?_singleton, Option.some.injEq]
        omega
      · have hlt2 : i + 15 < total := by
          by_contra hcon
          rw [progressCalls_neg _ _ hcon] at hpc
          exact List.noConfusion hpc
        rw [List.map_cons, List.map_cons, List.getLast?_cons_cons, ← List.map_cons, ← hpc]
        exact ihn (i + 15) (by omega) hlt2

theorem progressCalls_count (total : Nat) :
    ∀ n i, total - i ≤ n → i < total →
      ((progressCalls total i).map Prod.fst).count total = 1 := by
  intro n
  induction n with
  | zero => intro i h hlt; omega
  | succ n ihn =>
      intro i h hlt
      rw [progressCalls_pos _ _ hlt]
      by_cases hlt2 : i + 15 < total
      · simp only [List.map_cons, List.count_cons]
        rw [ihn (i + 15) (by omega) hlt2]
        have hne : (min (i + 15) total == total) = false := by
          simp only [beq_eq_false_iff_ne, ne_eq]
          omega
        rw [hne]
        simp
      · rw [progressCalls_neg _ _ hlt2]
        simp only [List.map_cons, List.map_nil, List.count_cons, List.count_nil]
        have heq : (min (i + 15) total == total) = true := by
          simp only [beq_iff_eq]
          omega
        rw [heq]
        simp

/-- C8: `onProgress` is called once per batch with `(completed, total)`; after
batch `j` the completed count is `min((j+1)*15, K)` — the cumulative number of
segments attempted — the sequence of completed counts is non-decreasing, and
for a non-empty input the final call reports exactly `K`, which appears
exactly once. -/
theorem c8_progress_monotone (oracle : Nat → Option (List TransEntry))
    (subs : List SubtitleSegment) :
    (translateSubtitles oracle subs).2.length = (subs.length + 14) / 15 ∧
    (∀ j p, ((translateSubtitles oracle subs).2)[j]? = some p →
      p = (min ((j + 1) * 15) subs.length, subs.length)) ∧
    List.Chain' (fun a b : Nat × Nat => a.1 ≤ b.1) (translateSubtitles oracle subs).2 ∧
    (subs ≠ [] →
      ((translateSubtitles oracle subs).2.map Prod.fst).getLast? = some subs.length ∧
      ((translateSubtitles oracle subs).2.map Prod.fst).count subs.length = 1) := by
  have hcalls : (translateSubtitles oracle subs).2 = progressCalls subs.length 0 :=
    translateLoop_calls oracle subs 0
  refine ⟨?_, ?_, ?_, ?_⟩
  · rw [hcalls, progressCalls_length subs.length subs.length 0 (by omega)]
    omega
  · intro j p hp
    rw [hcalls] at hp
    have := progressCalls_get subs.length subs.length 0 j p (by omega) hp
    simpa using this
  · rw [hcalls]
    exact progressCalls_chain subs.length subs.length 0 (by omega)
  · intro hne
    have hpos : 0 < subs.length := List.length_pos.mpr hne
    rw [hcalls]
    exact ⟨progressCalls_getLast subs.length subs.length 0 (by omega) hpos,
      progressCalls_count subs.length subs.length 0 (by omega) hpos⟩

/-- C8 witness: the progress theorem applied to a one-segment run. -/
theorem c8_witness :
    ((translateSubtitles (fun _ => none) [⟨1, .val 0, .val 1, []⟩]).2.map Prod.fst).getLast? =
      some ([⟨1, .val 0, .val 1, []⟩] : List SubtitleSegment).length ∧
    ((translateSubtitles (fun _ => none) [⟨1, .val 0, .val 1, []⟩]).2.map Prod.fst).count
      ([⟨1, .val 0, .val 1, []⟩] : List SubtitleSegment).length = 1 :=
  (c8_progress_monotone (fun _ => none) [⟨1, .val 0, .val 1, []⟩]).2.2.2 (by decide)

/-! ### C10: translation never disturbs ids or times -/

/-- C10: `translateSubtitles` is a functional transform — pointwise, each
output segment keeps the corresponding input segment's id, start time and
end time, and its text is the original text, possibly extended by a newline
and a translation (appending, never replacing). -/
theorem c10_frame_effect (oracle : Nat → Option (List TransEntry))
    (subs : List SubtitleSegment) :
    List.Forall₂ keepsFrame subs (translateSubtitles oracle subs).1 := by
  have h := translateLoop_keepsFrame oracle subs subs.length 0 (by omega)
  simpa [translateSubtitles] using h

end NewsLingo
